import Mathlib

/-!
# Verification of the OPF metadata-resolution engine

Shallow embedding of `opf.js` (the EPUB Package Document metadata resolver):
JS strings are Lean `String`s, JS insertion-ordered objects are association
lists, `null`/`undefined` results are `Option`, and a thrown `TypeError` is
`Except.error`.  External collaborators (`beautify-isbn`'s `hyphenate` and
`validate`, the host's `new Date` parsing) are explicit function parameters.
-/

namespace OPF

/-! ## JS primitives -/

/-- JS truthiness of a nullable string: `null`/`undefined` and `""` are falsy. -/
def truthy : Option String → Bool
  | none => false
  | some s => !(s == "")

/-- Index of the first occurrence of a character, `String.prototype.indexOf`. -/
def idxOfChar : List Char → Char → Option Nat
  | [], _ => none
  | c :: cs, t => if c == t then some 0 else (idxOfChar cs t).map (· + 1)

/-- Index of the last occurrence of a character. -/
def lastIdxOfChar (cs : List Char) (t : Char) : Option Nat :=
  (idxOfChar cs.reverse t).map (fun i => cs.length - 1 - i)

/-- The part of a qualified tag name after its first colon (`"dc:title"` ↦
`"title"`); a name with no colon is returned whole.  This is the local name
the namespace-unaware selector engine matches on. -/
def localNameOf (tag : String) : String :=
  match idxOfChar tag.toList ':' with
  | none => tag
  | some i => String.mk (tag.toList.drop (i + 1))

/-- `attr.replace(/^.+:/, '')`: the greedy regex eats through the *last* colon
provided at least one character precedes it; otherwise no match, unchanged. -/
def stripScheme (s : String) : String :=
  match lastIdxOfChar s.toList ':' with
  | none => s
  | some i => if i == 0 then s else String.mk (s.toList.drop (i + 1))

/-- `text.replace(/[^\d]+/g, '')`: keep only the decimal digits. -/
def digitsOnly (s : String) : String :=
  String.mk (s.toList.filter Char.isDigit)

/-- `String.prototype.toUpperCase` on the ASCII range. -/
def jsToUpper (s : String) : String := s.map Char.toUpper

/-- `String.prototype.toLowerCase` on the ASCII range. -/
def jsToLower (s : String) : String := s.map Char.toLower

/-- `s.match(/^isbn/i)` is truthy: the first four characters are `isbn`
case-insensitively. -/
def startsWithISBN (s : String) : Bool :=
  (s.toList.take 4).map Char.toLower == ['i', 's', 'b', 'n']

/-- Worker for `jsSplitWS`: accumulates the current (reversed) token and
closes it at the start of each whitespace run; `inWS` records that the
previous character was part of the current (already-emitted) run. -/
def jsSplitWSGo : List Char → List Char → Bool → List String
  | [], cur, _ => [String.mk cur.reverse]
  | c :: rest, cur, inWS =>
    if c.isWhitespace then
      if inWS then jsSplitWSGo rest [] true
      else String.mk cur.reverse :: jsSplitWSGo rest [] true
    else jsSplitWSGo rest (c :: cur) false

/-- `s.split(/\s+/)`: split on maximal whitespace runs; leading or trailing
whitespace contributes an empty boundary token, as in JS. -/
def jsSplitWS (s : String) : List String := jsSplitWSGo s.toList [] false

/-- `parseInt(s, 10)` restricted to optional sign and leading decimal digits
after leading whitespace; `none` models `NaN`. -/
def jsParseInt (s : String) : Option Int :=
  let cs := s.toList.dropWhile Char.isWhitespace
  let (neg, cs) := match cs with
    | '-' :: rest => (true, rest)
    | '+' :: rest => (false, rest)
    | rest => (false, rest)
  let digits := cs.takeWhile Char.isDigit
  if digits.isEmpty then none
  else
    let n : Nat := digits.foldl (fun acc c => acc * 10 + (c.toNat - '0'.toNat)) 0
    some (if neg then -(n : Int) else (n : Int))

/-- `parseInt(v) || 0`: `NaN` (and an absent property) collapse to `0`. -/
def jsParseIntOr0 (v : Option String) : Int :=
  match v with
  | none => 0
  | some s => (jsParseInt s).getD 0

/-! ## Insertion-ordered maps (JS objects) -/

/-- Assign `m[k] = v`: overwrite the (unique) existing binding in place if
`k` is present, else append.  This preserves JS property-insertion order. -/
def mset : List (String × α) → String → α → List (String × α)
  | [], k, v => [(k, v)]
  | p :: t, k, v => if p.1 == k then (k, v) :: t else p :: mset t k v

/-- Read `m[k]`, `none` for an absent property (JS `undefined`). -/
def mget (m : List (String × α)) (k : String) : Option α :=
  (m.find? (fun p => p.1 == k)).map (·.2)

/-- `delete m[k]`. -/
def mdel (m : List (String × α)) (k : String) : List (String × α) :=
  m.filter (fun p => !(p.1 == k))

/-- The keys of an object, in insertion order. -/
def mkeys (m : List (String × α)) : List String := m.map (·.1)

/-! ## Documents and elements -/

/-- A parsed XML element as the engine sees it: its reported (qualified) tag
name, its attributes in document order, and its text content. -/
structure Element where
  tagName : String
  attrs : List (String × String)
  textContent : String
deriving Repr, DecidableEq

/-- `el.getAttribute(name)`: `none` models JS `null`. -/
def Element.getAttribute (el : Element) (name : String) : Option String :=
  (el.attrs.find? (fun p => p.1 == name)).map (·.2)

/-- `el.getAttributeNames()`, in document order. -/
def Element.getAttributeNames (el : Element) : List String := el.attrs.map (·.1)

/-- The parsed OPF document, presented through the only selector scopes the
engine queries: the `package` element itself, the elements under
`package > metadata`, the `item` elements under `package > manifest`, the
`spine` element with its `itemref` children, and the `reference` elements
under `package > guide` — each list in document order. -/
structure Doc where
  packageEl : Option Element
  metaEls : List Element
  manifestItems : List Element
  spineEl : Option Element
  spineItemrefs : List Element
  guideRefs : List Element
deriving Repr, DecidableEq

/-- `querySelectorAll("package > metadata " + local)`: the namespace-unaware
engine matches a type selector against the local name. -/
def Doc.metadataByLocal (doc : Doc) (localTag : String) : List Element :=
  doc.metaEls.filter (fun el => localNameOf el.tagName == localTag)

/-- `querySelectorAll("package > metadata meta[refines=\#" + id + "]")`. -/
def Doc.refinesQuery (doc : Doc) (idv : String) : List Element :=
  doc.metaEls.filter (fun el =>
    localNameOf el.tagName == "meta" &&
    el.getAttribute "refines" == some ("#" ++ idv))

/-- `querySelector("package > metadata meta[name=" + nm + "]")`. -/
def Doc.qsMetaName (doc : Doc) (nm : String) : Option Element :=
  doc.metaEls.find? (fun el =>
    localNameOf el.tagName == "meta" && el.getAttribute "name" == some nm)

/-- `querySelector("package > manifest item[id=" + idv + "]")`. -/
def Doc.qsManifestId (doc : Doc) (idv : String) : Option Element :=
  doc.manifestItems.find? (fun el => el.getAttribute "id" == some idv)

/-- `querySelector("package > manifest item[properties~=cover-image]")`: the
CSS `~=` combinator matches a whitespace-separated token list. -/
def Doc.qsManifestPropsCover (doc : Doc) : Option Element :=
  doc.manifestItems.find? (fun el =>
    match el.getAttribute "properties" with
    | some p => (jsSplitWS p).contains "cover-image"
    | none => false)

/-! ## `getMetas` / `getMeta` -/

/-- `OPF.getMetas(tagName)`.  `none` models the JS `null` returned when the
tag name's first colon is its last character; otherwise the element list
(filtered back to the exact qualified name when a prefix was stripped). -/
def getMetas (doc : Doc) (tagName : String) : Option (List Element) :=
  match idxOfChar tagName.toList ':' with
  | none => some (doc.metadataByLocal tagName)
  | some ci =>
    if ci ≥ tagName.length - 1 then none
    else
      let short := String.mk (tagName.toList.drop (ci + 1))
      some ((doc.metadataByLocal short).filter (fun el => el.tagName == tagName))

/-- `OPF.getMeta(tagName, true)`: reads `els.length` on the `getMetas`
result, so a `null` result raises a `TypeError` (`Except.error`); otherwise
the first element's text content, or `null` when there is no match. -/
def getMetaText (doc : Doc) (tagName : String) : Except Unit (Option String) :=
  match getMetas doc tagName with
  | none => Except.error ()
  | some [] => Except.ok none
  | some (el :: _) => Except.ok (some el.textContent)

/-! ## Refinement Resolver (`refineMeta`) -/

/-- The attribute-collection pass of `refineMeta`: every attribute of the
element, optionally scheme-stripped, assigned in document order. -/
def collectAttrs (el : Element) (dropSchemes : Bool) : List (String × String) :=
  el.attrs.foldl
    (fun m p => mset m (if dropSchemes then stripScheme p.1 else p.1) p.2) []

/-- One refining `<meta>` merged into the flattened view: skipped when its
`property` attribute is falsy, else `property → text content`. -/
def refineStepFlat (dropSchemes : Bool) (m : List (String × String))
    (r : Element) : List (String × String) :=
  match r.getAttribute "property" with
  | none => m
  | some prop =>
    if prop == "" then m
    else mset m (if dropSchemes then stripScheme prop else prop) r.textContent

/-- `refineMeta(element, true, dropSchemes)` (flatten mode): the element's
attributes as a single map, then — only when the collected `id` is truthy —
every `meta[refines=#id]` merged in. -/
def refineMetaFlat (doc : Doc) (el : Element) (dropSchemes : Bool) :
    List (String × String) :=
  let m := collectAttrs el dropSchemes
  match mget m "id" with
  | none => m
  | some idv =>
    if idv == "" then m
    else (doc.refinesQuery idv).foldl (refineStepFlat dropSchemes) m

/-- A grouped refinement view: scheme name → (property → value), with
`"noScheme"` the sentinel group. -/
abbrev GView := List (String × List (String × String))

/-- One refining `<meta>` merged into the grouped view: its `scheme`
attribute (falsy → `"noScheme"`) picks the group, created lazily; skipped
when its `property` attribute is falsy. -/
def refineStepGrouped (dropSchemes : Bool) (o : GView) (r : Element) : GView :=
  let sch := match r.getAttribute "scheme" with
    | none => "noScheme"
    | some s => if s == "" then "noScheme" else s
  match r.getAttribute "property" with
  | none => o
  | some prop =>
    if prop == "" then o
    else
      let prop := if dropSchemes then stripScheme prop else prop
      let grp := (mget o sch).getD []
      mset o sch (mset grp prop r.textContent)

/-- `refineMeta(element, false, dropSchemes)` (grouped mode): the element's
own attributes under `"noScheme"`, then — only when the collected `id` is
truthy — every `meta[refines=#id]` merged into its scheme's group. -/
def refineMetaGrouped (doc : Doc) (el : Element) (dropSchemes : Bool) : GView :=
  let own := collectAttrs el dropSchemes
  let o : GView := [("noScheme", own)]
  match mget own "id" with
  | none => o
  | some idv =>
    if idv == "" then o
    else (doc.refinesQuery idv).foldl (refineStepGrouped dropSchemes) o

/-! ## Title Resolver (`getTitles`) -/

/-- The `dc:title` elements of a document, in document order. -/
def titleEls (doc : Doc) : List Element := (getMetas doc "dc:title").getD []

/-- The refined `title-type` of one title element (flattened,
scheme-stripped view). -/
def titleType (doc : Doc) (el : Element) : Option String :=
  mget (refineMetaFlat doc el true) "title-type"

/-- One title element folded into the title set: a falsy `title-type`
becomes `"main"` only while `titles.main` is falsy; a truthy `title-type`
stores (last wins) under that label. -/
def titleStep (doc : Doc) (titles : List (String × String)) (el : Element) :
    List (String × String) :=
  match titleType doc el with
  | none =>
    if truthy (mget titles "main") then titles
    else mset titles "main" el.textContent
  | some tt =>
    if tt == "" then
      if truthy (mget titles "main") then titles
      else mset titles "main" el.textContent
    else mset titles tt el.textContent

/-- `OPF.getTitles()`. -/
def getTitles (doc : Doc) : List (String × String) :=
  (titleEls doc).foldl (titleStep doc) []

/-! ## Creator Resolver (`parseCreators`, `getAuthors`) -/

/-- A creator record: the flattened refinement view plus `name` and a
defaulted `role`, as a JS object. -/
abbrev Creator := List (String × String)

/-- The numeric sort key of `creatorSort`: `parseInt(c['display-seq']) || 0`. -/
def creatorSeq (c : Creator) : Int := jsParseIntOr0 (mget c "display-seq")

/-- Stable insertion (after equal keys), the effect of a stable
comparator sort on one element. -/
def insBySeq (c : Creator) : List Creator → List Creator
  | [] => [c]
  | x :: xs => if creatorSeq c < creatorSeq x then c :: x :: xs
               else x :: insBySeq c xs

/-- `list.sort(creatorSort)` as a stable sort by `creatorSeq`. -/
def sortCreators (l : List Creator) : List Creator :=
  l.foldl (fun acc c => insBySeq c acc) []

/-- `OPF.parseCreators()`: refine each `dc:creator` (flattened,
scheme-stripped), attach `name`, default a falsy `role` to `"unknown"`,
group by role, sort each group by `display-seq`, and finally rename
`"unknown"` to `"aut"` when no `"aut"` group exists. -/
def parseCreators (doc : Doc) : List (String × List Creator) :=
  let grouped := ((getMetas doc "dc:creator").getD []).foldl
    (fun creators el =>
      let c := refineMetaFlat doc el true
      let c := mset c "name" el.textContent
      let c := if truthy (mget c "role") then c else mset c "role" "unknown"
      let role := (mget c "role").getD ""
      match mget creators role with
      | none => mset creators role [c]
      | some l => mset creators role (l ++ [c]))
    []
  let sorted := grouped.map (fun p => (p.1, sortCreators p.2))
  match mget sorted "unknown" with
  | none => sorted
  | some unk =>
    match mget sorted "aut" with
    | some _ => sorted
    | none => mdel (mset sorted "aut" unk) "unknown"

/-- The derived "Last, First Middle…" filing form: split on whitespace; a
single token is returned unchanged, else the final token moves to the
front followed by `", "` and the remaining tokens joined with spaces. -/
def derivedFiling (name : String) : String :=
  let parts := jsSplitWS name
  if parts.length ≤ 1 then name
  else parts.getLastD "" ++ ", " ++ String.intercalate " " parts.dropLast

/-- One author's contribution to `getAuthors(true)`: the truthy
`for-filing` property verbatim, else the derived filing form of `name`.
(`parseCreators` always sets `name`; an absent `name` reads as `""`.) -/
def filingName (a : Creator) : String :=
  match mget a "for-filing" with
  | some ff => if ff == "" then derivedFiling ((mget a "name").getD "") else ff
  | none => derivedFiling ((mget a "name").getD "")

/-- `OPF.getAuthors(forFiling)` over an already-built creator set: only the
`"aut"` group is consulted (absent → `[]`). -/
def getAuthors (creators : List (String × List Creator)) (forFiling : Bool) :
    List String :=
  match mget creators "aut" with
  | none => []
  | some auts =>
    auts.map (fun a =>
      if forFiling then filingName a else (mget a "name").getD "")

/-! ## Identifier Resolver (`setISBN`, `parseIdentifiers`, `getISBN`) -/

/-- A value of the identifier set: every key holds a string except
`"URIs"`, which holds an ordered list. -/
inductive IdVal
  | str (s : String)
  | uris (l : List String)
deriving Repr, DecidableEq

/-- The identifier set (`parseIdentifiers`' result object). -/
abbrev IdSet := List (String × IdVal)

/-- JS truthiness of an identifier-set property: absent and `""` are falsy;
an array (even empty) is truthy. -/
def idTruthy : Option IdVal → Bool
  | none => false
  | some (IdVal.str s) => !(s == "")
  | some (IdVal.uris _) => true

/-- The ONIX Code List 5 table; JS property access coerces the numeric keys
to these exact strings. -/
def onixCodeList5 : List (String × String) :=
  [("1", "Proprietary"), ("2", "ISBN-10"), ("3", "GTIN-13"), ("4", "UPC"),
   ("5", "ISMN-10"), ("6", "DOI"), ("13", "LCCN"), ("14", "GTIN-14"),
   ("15", "ISBN-13"), ("17", "Legal deposit number"), ("22", "URN"),
   ("23", "OCLC number"), ("25", "ISMN-13"), ("26", "ISBN-A"),
   ("27", "JP e-code"), ("28", "OLCC number"), ("29", "JP Magazine ID"),
   ("30", "UPC12+5"), ("31", "BNF Control number"), ("35", "ARK")]

/-- `OPF.setISBN(o, text)`: strip non-digits; exactly 10 digits store the
formatted value under `"ISBN-10"`, exactly 13 under `"ISBN-13"`, any other
count stores nothing.  `fmt` is `beautify-isbn`'s `hyphenate`. -/
def setISBN (fmt : String → String) (o : IdSet) (text : String) : IdSet :=
  let val := digitsOnly text
  if val.length == 10 then mset o "ISBN-10" (IdVal.str (fmt val))
  else if val.length == 13 then mset o "ISBN-13" (IdVal.str (fmt val))
  else o

/-- The per-element body of `parseIdentifiers`' loop.  The UUID and URI
checks are independent; a truthy `opf:scheme` equal (case-insensitively) to
`"ISBN"` short-circuits the rest; otherwise the grouped refinement view —
always a truthy object, so the `if(!attrs) continue` guard in the source
never fires — routes through the ONIX Code List 5 branch or the
`id^="isbn"` heuristic. -/
def idStep (doc : Doc) (fmt : String → String) (epubID : Option String)
    (o : IdSet) (el : Element) : IdSet :=
  let o := if truthy epubID && el.getAttribute "id" == epubID then
      mset o "UUID" (IdVal.str el.textContent)
    else o
  let o := if el.getAttribute "opf:scheme" == some "URI" then
      match mget o "URIs" with
      | some (IdVal.uris l) => mset o "URIs" (IdVal.uris (l ++ [el.textContent]))
      | _ => mset o "URIs" (IdVal.uris [el.textContent])
    else o
  let schemeVal := el.getAttribute "opf:scheme"
  if truthy schemeVal && jsToUpper (schemeVal.getD "") == "ISBN" then
    setISBN fmt o el.textContent
  else
    let attrs := refineMetaGrouped doc el false
    match mget attrs "onix:codelist5" with
    | some grp =>
      match mget grp "identifier-type" with
      | none => o
      | some code =>
        if code == "" then o
        else
          match mget onixCodeList5 code with
          | none => o
          | some label =>
            let o := mset o label (IdVal.str el.textContent)
            if label == "ISBN-10" || label == "ISBN-13" then
              mset o label (IdVal.str (fmt (digitsOnly el.textContent)))
            else o
    | none =>
      match mget attrs "noScheme" with
      | some grp =>
        match mget grp "id" with
        | some idv =>
          if idv == "" then o
          else if startsWithISBN idv then setISBN fmt o el.textContent
          else o
        | none => o
      | none => o

/-- The guarded element loop of `parseIdentifiers`, before the UUID-as-ISBN
fallback. -/
def parseIdentifiersRaw (fmt : String → String) (doc : Doc) : IdSet :=
  match doc.packageEl with
  | none => []
  | some pkg =>
    let epubID := pkg.getAttribute "unique-identifier"
    ((getMetas doc "dc:identifier").getD []).foldl (idStep doc fmt epubID) []

/-- The last-resort UUID-as-ISBN step: when `o['UUID']` is truthy and
neither ISBN key is, strip non-digits from the UUID and apply `setISBN`
only if the digits pass checksum validation (`beautify-isbn`'s
`validate`). -/
def isbnFallback (fmt : String → String) (validate : String → Bool)
    (o : IdSet) : IdSet :=
  match mget o "UUID" with
  | some (IdVal.str u) =>
    if u == "" then o
    else if idTruthy (mget o "ISBN-10") || idTruthy (mget o "ISBN-13") then o
    else
      let val := digitsOnly u
      if validate val then setISBN fmt o val else o
  | _ => o

/-- `OPF.parseIdentifiers()`: empty when there is no `package` element or no
`dc:identifier` element; otherwise the element loop followed by the
fallback. -/
def parseIdentifiers (fmt : String → String) (validate : String → Bool)
    (doc : Doc) : IdSet :=
  match doc.packageEl with
  | none => []
  | some _ =>
    if ((getMetas doc "dc:identifier").getD []).isEmpty then []
    else isbnFallback fmt validate (parseIdentifiersRaw fmt doc)

/-- `OPF.getISBN()`: `identifiers['ISBN-13'] || identifiers['ISBN-10']`. -/
def getISBN (identifiers : IdSet) : Option IdVal :=
  if idTruthy (mget identifiers "ISBN-13") then mget identifiers "ISBN-13"
  else mget identifiers "ISBN-10"

/-! ## Manifest/Spine Resolver -/

/-- `OPF.parseManifest()`: id → href for every `manifest > item` with a
truthy `id` and a truthy `href`. -/
def parseManifest (doc : Doc) : List (String × String) :=
  doc.manifestItems.foldl
    (fun o el =>
      match el.getAttribute "id" with
      | none => o
      | some id =>
        if id == "" then o
        else
          match el.getAttribute "href" with
          | none => o
          | some href =>
            if href == "" then o else mset o id href)
    []

/-- The spine record: `toc` verbatim (possibly `null`), the
page-progression direction, and the ordered resolved hrefs. -/
structure SpineRec where
  toc : Option String
  pageProgressionDirection : String
  items : List String
deriving Repr, DecidableEq

/-- One `itemref` folded into the ordered item list: skipped when its
`idref` is falsy, when `linear="no"`, or when the manifest map yields
nothing truthy for it; otherwise the resolved href is appended. -/
def spineStep (items : List (String × String)) (acc : List String)
    (el : Element) : List String :=
  match el.getAttribute "idref" with
  | none => acc
  | some idref =>
    if idref == "" then acc
    else if el.getAttribute "linear" == some "no" then acc
    else
      match mget items idref with
      | none => acc
      | some item => if item == "" then acc else acc ++ [item]

/-- `OPF.parseSpine()`: `null` without a `spine` element; otherwise the
`itemref` elements folded in document order. -/
def parseSpine (doc : Doc) : Option SpineRec :=
  let items := parseManifest doc
  match doc.spineEl with
  | none => none
  | some sp =>
    let spine := doc.spineItemrefs.foldl (spineStep items) []
    some { toc := sp.getAttribute "toc"
         , pageProgressionDirection :=
             match sp.getAttribute "page-progression-direction" with
             | none => "ltr"
             | some s => if s == "" then "ltr" else s
         , items := spine }

/-! ## Cover Resolver -/

/-- The supported cover media types. -/
def supportedCoverMediaTypes : List String :=
  ["image/jpeg", "image/png", "image/gif", "image/svg+xml"]

/-- Extension → media type for covers lacking a `media-type` attribute. -/
def supportedCoverFileTypeConv : List (String × String) :=
  [("jpeg", "image/jpeg"), ("jpg", "image/jpeg"), ("png", "image/png"),
   ("gif", "image/gif"), ("svg", "image/svg+xml")]

/-- `href.replace(/.*\./g, '')`: the greedy global regex leaves exactly the
text after the last dot. -/
def extAfterLastDot (href : String) : String :=
  match lastIdxOfChar href.toList '.' with
  | none => href
  | some i => String.mk (href.toList.drop (i + 1))

/-- `OPF.isValidCoverImageElement(el)`: `none` models the JS `false`, `some
mt` the returned truthy media-type string.  A falsy `media-type` attribute
routes through the href-extension table; an unrecognised extension falls
through to the media-type list check, which a falsy `media-type` never
passes. -/
def isValidCoverImageElement (el : Option Element) : Option String :=
  match el with
  | none => none
  | some e =>
    let mediaType := e.getAttribute "media-type"
    if truthy mediaType then
      if supportedCoverMediaTypes.contains (mediaType.getD "") then mediaType
      else none
    else
      match e.getAttribute "href" with
      | none => none
      | some href =>
        if href == "" then none
        else if !(href.toList.contains '.') then none
        else
          match mget supportedCoverFileTypeConv (jsToLower (extAfterLastDot href)) with
          | some mt => some mt
          | none => none

/-- The resolved cover: `path`/`mediaType`, both `null` when nothing
validated. -/
structure CoverDesc where
  path : Option String
  mediaType : Option String
deriving Repr, DecidableEq

/-- `OPF.parseCoverImage()`.  `Except.error ()` models the `TypeError`
raised when, the first two strategies having failed, there is no
`meta[name=cover]` element at all: the source then calls
`el.getAttribute('content')` on `null`. -/
def parseCoverImage (doc : Doc) : Except Unit CoverDesc :=
  let el1 := doc.qsManifestPropsCover
  let afterMeta : Except Unit (Option Element) :=
    if (isValidCoverImageElement el1).isSome then Except.ok el1
    else
      let el2 := doc.qsMetaName "cover-image"
      if (isValidCoverImageElement el2).isSome then Except.ok el2
      else
        let el3 := doc.qsMetaName "cover"
        if (isValidCoverImageElement el3).isSome then Except.ok el3
        else
          match el3 with
          | none => Except.error ()
          | some e3 =>
            match e3.getAttribute "content" with
            | none => Except.ok el3
            | some itemID =>
              if itemID == "" then Except.ok el3
              else Except.ok (doc.qsManifestId itemID)
  match afterMeta with
  | Except.error e => Except.error e
  | Except.ok el0 =>
    let el := if (isValidCoverImageElement el0).isSome then el0
      else
        let el5 := doc.qsManifestId "cover-image"
        if (isValidCoverImageElement el5).isSome then el5
        else doc.qsManifestId "cover"
    match el, isValidCoverImageElement el with
    | some e, some mt => Except.ok ⟨e.getAttribute "href", some mt⟩
    | _, _ => Except.ok ⟨none, none⟩

/-! ## Publication date (constructor field) -/

/-- The possible states of `this.publicationDate` after the constructor:
`null` (no `dc:date`), the empty string (an empty `dc:date`, left as a
string by the truthiness guard), or a `Date` object — `dateObj none` being
JS's Invalid Date. -/
inductive PubDate
  | nullv
  | emptyStr
  | dateObj (t : Option Int)
deriving Repr, DecidableEq

/-- The constructor's publication-date computation:
`getMeta('dc:date', true)` then, when truthy, `new Date(text)`.  `jsDate`
models the host's date parsing, `none` standing for Invalid Date; `new
Date` itself never raises. -/
def publicationDate (jsDate : String → Option Int) (doc : Doc) : PubDate :=
  match getMetaText doc "dc:date" with
  | Except.ok none => PubDate.nullv
  | Except.ok (some s) => if s == "" then PubDate.emptyStr
                          else PubDate.dateObj (jsDate s)
  | Except.error _ => PubDate.nullv

/-! ## Claim-side (spec-worded) definitions -/

/-- Spec side, §4.6: one `itemref`'s contribution to the spine — `none`
exactly when it lacks a truthy `idref`, has `linear="no"`, or its `idref`
does not resolve to anything truthy in the manifest map. -/
def resolveItemref (items : List (String × String)) (el : Element) :
    Option String :=
  match el.getAttribute "idref" with
  | none => none
  | some idref =>
    if idref == "" then none
    else if el.getAttribute "linear" == some "no" then none
    else
      match mget items idref with
      | none => none
      | some h => if h == "" then none else some h

/-- Spec side, §3/§4.3: the `"main"` title the resolver should produce —
the last title with an explicit `title-type` of `"main"`, or, absent one,
the first title lacking a truthy `title-type`. -/
def mainOfSpec (doc : Doc) (els : List Element) : Option String :=
  match (els.filter (fun el => titleType doc el == some "main")).getLast? with
  | some el => some el.textContent
  | none =>
    (els.find? (fun el => !truthy (titleType doc el))).map Element.textContent

/-- Spec side, §4.4: the derived filing form, written from the spec's words
— split the display name on whitespace; with fewer than two tokens the name
is returned unchanged; otherwise the final token moves to the front
followed by a comma and a space, and the remaining tokens are joined after
it with spaces. -/
def specFiling (name : String) : String :=
  match jsSplitWS name with
  | [] => name
  | [_] => name
  | x :: y :: rest =>
    (x :: y :: rest).getLastD "" ++ ", " ++
      String.intercalate " " (x :: y :: rest).dropLast

/-! ## Concrete documents -/

/-- A document with no package, metadata, manifest, spine or guide. -/
def emptyDoc : Doc := ⟨none, [], [], none, [], []⟩

/-- A `dc:identifier` carrying three digits, classified as ISBN-13 by an
ONIX Code List 5 refinement (`identifier-type` code 15). -/
def onixDoc : Doc :=
  { packageEl := some ⟨"package", [], ""⟩
  , metaEls :=
      [ ⟨"dc:identifier", [("id", "isbn13")], "123"⟩
      , ⟨"meta", [("refines", "#isbn13"), ("property", "identifier-type"),
                  ("scheme", "onix:codelist5")], "15"⟩ ]
  , manifestItems := [], spineEl := none, spineItemrefs := [], guideRefs := [] }

/-- The spec's fallback example: the `unique-identifier` element holds a
hyphenated ISBN-13 and no other identifier is present. -/
def uuidIsbnDoc : Doc :=
  { packageEl := some ⟨"package", [("unique-identifier", "bookid")], ""⟩
  , metaEls := [⟨"dc:identifier", [("id", "bookid")], "978-1-4302-6572-6"⟩]
  , manifestItems := [], spineEl := none, spineItemrefs := [], guideRefs := [] }

/-- The ISBN checksum validator restricted to the one digit string the
fallback example needs; stands in for `beautify-isbn`'s `validate`. -/
def exampleValidate (s : String) : Bool := s == "9781430265726"

/-- The spec's spine example: `itemref a` is `linear="no"`, `itemref b`
resolves to `y.html`. -/
def spineExDoc : Doc :=
  { packageEl := some ⟨"package", [], ""⟩
  , metaEls := []
  , manifestItems := [ ⟨"item", [("id", "a"), ("href", "x.html")], ""⟩
                     , ⟨"item", [("id", "b"), ("href", "y.html")], ""⟩ ]
  , spineEl := some ⟨"spine", [], ""⟩
  , spineItemrefs := [ ⟨"itemref", [("idref", "a"), ("linear", "no")], ""⟩
                     , ⟨"itemref", [("idref", "b")], ""⟩ ]
  , guideRefs := [] }

/-- A document whose only title carries an explicit non-main title-type:
its title set ends up with no `"main"` entry. -/
def subtitleOnlyDoc : Doc :=
  { packageEl := some ⟨"package", [], ""⟩
  , metaEls := [⟨"dc:title", [("title-type", "subtitle")], "S"⟩]
  , manifestItems := [], spineEl := none, spineItemrefs := [], guideRefs := [] }

/-- The spec's title example: an untyped `Foo` and a refined subtitle
`Bar`. -/
def titleExDoc : Doc :=
  { packageEl := some ⟨"package", [], ""⟩
  , metaEls := [ ⟨"dc:title", [], "Foo"⟩
               , ⟨"dc:title", [("id", "t2")], "Bar"⟩
               , ⟨"meta", [("refines", "#t2"), ("property", "title-type")], "subtitle"⟩ ]
  , manifestItems := [], spineEl := none, spineItemrefs := [], guideRefs := [] }

/-- The spec's creator example: a sole `dc:creator` named Jane Doe with no
role or refinement. -/
def janeDoc : Doc :=
  { packageEl := some ⟨"package", [], ""⟩
  , metaEls := [⟨"dc:creator", [("id", "c1")], "Jane Doe"⟩]
  , manifestItems := [], spineEl := none, spineItemrefs := [], guideRefs := [] }

/-- A document whose `dc:date` text is not a parseable calendar date. -/
def badDateDoc : Doc :=
  { packageEl := some ⟨"package", [], ""⟩
  , metaEls := [⟨"dc:date", [], "not-a-date"⟩]
  , manifestItems := [], spineEl := none, spineItemrefs := [], guideRefs := [] }

/-! ## Map lemmas -/

theorem mget_nil (k : String) : mget ([] : List (String × α)) k = none := rfl

theorem mget_cons (p : String × α) (t : List (String × α)) (k : String) :
    mget (p :: t) k = if p.1 == k then some p.2 else mget t k := by
  by_cases h : p.1 = k
  · rw [mget, List.find?_cons_of_pos _ (by simpa using h), if_pos (by simpa using h)]
    rfl
  · rw [mget, List.find?_cons_of_neg _ (by simpa using h), if_neg (by simpa using h)]
    rfl

theorem mget_mset_self (m : List (String × α)) (k : String) (v : α) :
    mget (mset m k v) k = some v := by
  induction m with
  | nil => simp [mset, mget_cons]
  | cons p t ih =>
    by_cases h : p.1 = k
    · simp [mset, h, mget_cons]
    · rw [mset, if_neg (by simpa using h), mget_cons, if_neg (by simpa using h)]
      exact ih

theorem mget_mset_ne (m : List (String × α)) (k k' : String) (v : α)
    (h : k' ≠ k) : mget (mset m k v) k' = mget m k' := by
  induction m with
  | nil =>
    show mget [(k, v)] k' = mget ([] : List (String × α)) k'
    rw [mget_cons, if_neg (by simpa using Ne.symm h), mget_nil]
  | cons p t ih =>
    by_cases hp : p.1 = k
    · rw [mset, if_pos (by simpa using hp), mget_cons, mget_cons]
      rw [if_neg (by simpa using Ne.symm h), if_neg]
      simpa [hp] using Ne.symm h
    · rw [mset, if_neg (by simpa using hp), mget_cons, mget_cons]
      by_cases hk : p.1 = k'
      · simp [hk]
      · rw [if_neg (by simpa using hk), if_neg (by simpa using hk)]
        exact ih

theorem mset_mset_same (m : List (String × α)) (k : String) (a b : α) :
    mset (mset m k a) k b = mset m k b := by
  induction m with
  | nil => simp [mset]
  | cons p t ih =>
    by_cases h : p.1 = k
    · simp [mset, h]
    · rw [mset, if_neg (by simpa using h), mset, if_neg (by simpa using h),
        mset, if_neg (by simpa using h), ih]

theorem mkeys_mset (m : List (String × α)) (k : String) (v : α) :
    mkeys (mset m k v) = if k ∈ mkeys m then mkeys m else mkeys m ++ [k] := by
  simp only [mkeys]
  induction m with
  | nil => simp [mset]
  | cons p t ih =>
    by_cases h : p.1 = k
    · simp [mset, h]
    · rw [mset, if_neg (by simpa using h)]
      simp only [List.map_cons, List.mem_cons]
      by_cases hm : k ∈ t.map (fun x => x.1)
      · rw [if_pos (Or.inr hm),
          show (mset t k v).map (fun x => x.1) = t.map (fun x => x.1) from by
            rw [ih, if_pos hm]]
      · have hnc : ¬(k = p.1 ∨ k ∈ t.map (fun x => x.1)) := by
          push_neg
          exact ⟨Ne.symm h, hm⟩
        rw [if_neg hnc,
          show (mset t k v).map (fun x => x.1) = t.map (fun x => x.1) ++ [k] from by
            rw [ih, if_neg hm]]
        simp

theorem mem_mkeys_mset (m : List (String × α)) (k : String) (v : α)
    (k' : String) (h : k' ∈ mkeys m) : k' ∈ mkeys (mset m k v) := by
  rw [mkeys_mset]
  by_cases hm : k ∈ mkeys m
  · simpa [hm]
  · simp [hm, h]

theorem self_mem_mkeys_mset (m : List (String × α)) (k : String) (v : α) :
    k ∈ mkeys (mset m k v) := by
  rw [mkeys_mset]
  by_cases hm : k ∈ mkeys m
  · simp only [if_pos hm]
    exact hm
  · simp [hm]

theorem keysNodup_mset (m : List (String × α)) (k : String) (v : α)
    (h : (mkeys m).Nodup) : (mkeys (mset m k v)).Nodup := by
  rw [mkeys_mset]
  by_cases hm : k ∈ mkeys m
  · simpa [hm]
  · rw [if_neg hm]
    simpa [List.nodup_append] using ⟨h, fun hk => hm hk⟩

theorem filter_key_length_le_one (m : List (String × α)) (k : String)
    (h : (mkeys m).Nodup) : (m.filter (fun p => p.1 == k)).length ≤ 1 := by
  induction m with
  | nil => simp
  | cons p t ih =>
    simp only [mkeys, List.map_cons, List.nodup_cons] at h
    by_cases hp : p.1 = k
    · rw [List.filter_cons_of_pos (by simpa using hp)]
      have hnil : t.filter (fun p => p.1 == k) = [] := by
        rw [List.filter_eq_nil_iff]
        intro q hq hqk
        apply h.1
        have hqk' : q.1 = k := by simpa using hqk
        rw [hp, ← hqk']
        exact List.mem_map_of_mem _ hq
      rw [hnil]
      simp
    · rw [List.filter_cons_of_neg (by simpa using hp)]
      exact ih h.2

/-! ## String helper lemmas -/

theorem truthy_none : truthy none = false := rfl

theorem idxOfChar_append_last (l : List Char) (c : Char) (h : c ∉ l) :
    idxOfChar (l ++ [c]) c = some l.length := by
  induction l with
  | nil => simp [idxOfChar]
  | cons x xs ih =>
    have hxc : (x == c) = false := by
      simp only [List.mem_cons, not_or] at h
      simpa using fun e => h.1 e.symm
    show (if x == c then some 0 else (idxOfChar (xs ++ [c]) c).map (· + 1)) =
      some (xs.length + 1)
    rw [hxc]
    simp only [Bool.false_eq_true, if_false]
    rw [ih (by simp only [List.mem_cons, not_or] at h; exact h.2)]
    rfl

/-! ## Claim C1 -/

/-- **C1** (code bug): on a document with no
`manifest item[properties~=cover-image]`, no `meta[name=cover-image]` and
no `meta[name=cover]` element at all, `parseCoverImage` does *not* return
the empty descriptor: the third strategy leaves `el` as `null` and the
source calls `el.getAttribute('content')` on it, raising a `TypeError`
(modelled as `Except.error ()`), contradicting the spec's "no resolver
should ever throw for data-shape reasons". -/
theorem c1_parseCoverImage_throws_on_bare_doc :
    parseCoverImage emptyDoc = Except.error () := rfl

/-! ## Claim C2 -/

/-- **C2**: `setISBN` strips every non-digit character; exactly 10
remaining digits store the hyphenated form under `"ISBN-10"`, exactly 13
under `"ISBN-13"`, and any other digit count stores nothing, leaving the
identifier set unchanged (and never fails). -/
theorem c2_setISBN_normalization (fmt : String → String) (o : IdSet)
    (text : String) :
    ((digitsOnly text).length = 10 →
      setISBN fmt o text = mset o "ISBN-10" (IdVal.str (fmt (digitsOnly text)))) ∧
    ((digitsOnly text).length = 13 →
      setISBN fmt o text = mset o "ISBN-13" (IdVal.str (fmt (digitsOnly text)))) ∧
    ((digitsOnly text).length ≠ 10 → (digitsOnly text).length ≠ 13 →
      setISBN fmt o text = o) := by
  refine ⟨fun h => ?_, fun h => ?_, fun h10 h13 => ?_⟩
  · simp [setISBN, h]
  · simp [setISBN, h]
  · simp only [setISBN]
    rw [if_neg (by simpa using h10), if_neg (by simpa using h13)]

/-- Witness for C2 at a concrete 10-digit input. -/
theorem c2_setISBN_normalization_witness :
    (digitsOnly "0-306-40615-2").length = 10 ∧
    setISBN id ([] : IdSet) "0-306-40615-2" = [("ISBN-10", IdVal.str "0306406152")] :=
  ⟨by decide,
   ((c2_setISBN_normalization id [] "0-306-40615-2").1 (by decide)).trans (by decide)⟩

/-! ## Claim C7 -/

/-- **C7** (counterexample): for the input `"dc:"` the source returns JS
`null` — not an empty element list — and the `els.length` read in
`getMeta` on that `null` is a `TypeError`, so the condition is not
error-free downstream. -/
theorem c7_counterexample :
    getMetas emptyDoc "dc:" = none ∧
    getMetas emptyDoc "dc:" ≠ some [] ∧
    getMetaText emptyDoc "dc:" = Except.error () :=
  ⟨rfl, by decide, rfl⟩

/-- **C7** (amended): for every tag name ending in a colon with no local
part, `getMetas` returns `null` (an absent result, distinct from an empty
element list) without itself raising and without querying the document. -/
theorem c7_trailing_colon_yields_null (doc : Doc) (s : String)
    (h : ':' ∉ s.toList) : getMetas doc (s ++ ":") = none := by
  have htl : (s ++ ":").toList = s.toList ++ [':'] := by
    show (s ++ ":").data = s.data ++ (":" : String).data
    simp
  have hidx : idxOfChar (s ++ ":").toList ':' = some s.toList.length := by
    rw [htl]
    exact idxOfChar_append_last _ _ h
  simp only [getMetas, hidx]
  rw [if_pos]
  show s.toList.length ≥ (s ++ ":").length - 1
  have hlen : (s ++ ":").length = s.length + 1 := by
    rw [String.length_append]
    rfl
  rw [hlen]
  exact Nat.le_of_eq rfl

/-- Witness for C7's amended claim at the concrete input `"dc:"`. -/
theorem c7_trailing_colon_yields_null_witness :
    getMetas emptyDoc ("dc" ++ ":") = none :=
  c7_trailing_colon_yields_null emptyDoc "dc" (by decide)

/-! ## Claim C9 -/

/-- **C9** (counterexample): with a `dc:date` whose text parses as no
calendar date, the publication-date field holds an Invalid Date object
(`dateObj none`) — an invalid value, not the absent field the claim
asserts. -/
theorem c9_counterexample :
    publicationDate (fun _ => none) badDateDoc = PubDate.dateObj none ∧
    PubDate.dateObj none ≠ PubDate.nullv ∧
    PubDate.dateObj none ≠ PubDate.emptyStr :=
  ⟨rfl, by decide, by decide⟩

/-- **C9** (amended): the constructor never raises over `dc:date`.  An
absent `dc:date` leaves the field `null`; an empty text leaves the empty
string; a nonempty text always yields `new Date(text)` — an Invalid Date
object rather than an absent field when the text is unparseable. -/
theorem c9_publicationDate_cases (jsDate : String → Option Int) (doc : Doc) :
    (getMetaText doc "dc:date" = Except.ok none →
      publicationDate jsDate doc = PubDate.nullv) ∧
    (getMetaText doc "dc:date" = Except.ok (some "") →
      publicationDate jsDate doc = PubDate.emptyStr) ∧
    (∀ s, s ≠ "" → getMetaText doc "dc:date" = Except.ok (some s) →
      publicationDate jsDate doc = PubDate.dateObj (jsDate s)) := by
  refine ⟨fun h => ?_, fun h => ?_, fun s hs h => ?_⟩
  · simp [publicationDate, h]
  · simp [publicationDate, h]
  · simp [publicationDate, h, hs]

/-- Witness for C9's amended claim: the unparseable-text case at a
concrete document. -/
theorem c9_publicationDate_cases_witness :
    publicationDate (fun _ => none) badDateDoc = PubDate.dateObj none :=
  (c9_publicationDate_cases (fun _ => none) badDateDoc).2.2 "not-a-date"
    (by decide) rfl

/-! ## Claim C3 -/

/-- **C3** (counterexample): a `dc:identifier` classified ISBN-13 by ONIX
code 15 whose text has only 3 digits still stores a value under
`"ISBN-13"` (the formatter applied to `"123"`; here the formatter is
`id`), although the normalization rule would discard a 3-digit count. -/
theorem c3_counterexample :
    mget (parseIdentifiers id (fun _ => false) onixDoc) "ISBN-13" =
      some (IdVal.str "123") ∧
    (digitsOnly "123").length ≠ 10 ∧ (digitsOnly "123").length ≠ 13 := by
  refine ⟨by decide, by decide, by decide⟩

/-- **C3** (amended): an element classified through the ONIX Code List 5
branch with label `"ISBN-10"`/`"ISBN-13"` stores, under *that label*
(regardless of the digit count), the formatter applied to the digits-only
text; the `setISBN` digit-count rule is not consulted and nothing is
discarded.  Stated about one loop iteration (`idStep`) of an element that
triggers none of the UUID/URI/`opf:scheme="ISBN"` branches. -/
theorem c3_onix_isbn_formats_under_label (doc : Doc) (fmt : String → String)
    (epubID : Option String) (o : IdSet) (el : Element)
    (grp : List (String × String)) (code label : String)
    (h1 : truthy epubID = false)
    (h2 : el.getAttribute "opf:scheme" = none)
    (h3 : mget (refineMetaGrouped doc el false) "onix:codelist5" = some grp)
    (h4 : mget grp "identifier-type" = some code)
    (h5 : code ≠ "")
    (h6 : mget onixCodeList5 code = some label)
    (h7 : label = "ISBN-10" ∨ label = "ISBN-13") :
    idStep doc fmt epubID o el =
      mset o label (IdVal.str (fmt (digitsOnly el.textContent))) := by
  have hiso : idStep doc fmt epubID o el =
      mset (mset o label (IdVal.str el.textContent)) label
        (IdVal.str (fmt (digitsOnly el.textContent))) := by
    rcases h7 with h7 | h7 <;>
      simp [idStep, h1, h2, h3, h4, h5, h6, h7, truthy_none, Bool.false_and]
  rw [hiso, mset_mset_same]

/-- Witness for C3's amended claim at the concrete ONIX-code-15 element of
`onixDoc`. -/
theorem c3_onix_isbn_formats_under_label_witness :
    idStep onixDoc id none []
        ⟨"dc:identifier", [("id", "isbn13")], "123"⟩ =
      [("ISBN-13", IdVal.str "123")] :=
  (c3_onix_isbn_formats_under_label onixDoc id none []
    ⟨"dc:identifier", [("id", "isbn13")], "123"⟩
    [("identifier-type", "15")] "15" "ISBN-13"
    rfl (by decide) (by decide) (by decide) (by decide) (by decide)
    (Or.inr rfl)).trans (by decide)

/-! ## Claim C10 -/

theorem foldl_mset_mem_mono (f : String × String → String)
    (l : List (String × String)) (m : List (String × String)) (k : String)
    (h : k ∈ mkeys m) :
    k ∈ mkeys (l.foldl (fun m p => mset m (f p) p.2) m) := by
  induction l generalizing m with
  | nil => exact h
  | cons p t ih => exact ih _ (mem_mkeys_mset _ _ _ _ h)

theorem mem_mkeys_collectAttrs (el : Element) (ds : Bool) (p : String × String)
    (hp : p ∈ el.attrs) :
    (if ds then stripScheme p.1 else p.1) ∈ mkeys (collectAttrs el ds) := by
  show _ ∈ mkeys (el.attrs.foldl
    (fun m q => mset m (if ds then stripScheme q.1 else q.1) q.2) [])
  revert hp
  generalize ([] : List (String × String)) = m
  induction el.attrs generalizing m with
  | nil => intro hp; cases hp
  | cons q t ih =>
    intro hp
    rcases List.mem_cons.1 hp with rfl | hp
    · exact foldl_mset_mem_mono _ t _ _ (self_mem_mkeys_mset _ _ _)
    · exact ih _ hp

/-- `refineStepGrouped` never removes the `"noScheme"` binding. -/
theorem refineStep_noScheme_isSome (ds : Bool) (o : GView) (r : Element)
    (h : (mget o "noScheme").isSome = true) :
    (mget (refineStepGrouped ds o r) "noScheme").isSome = true := by
  simp only [refineStepGrouped]
  split
  · exact h
  · split
    · exact h
    · generalize (match r.getAttribute "scheme" with
        | none => "noScheme"
        | some s => if s == "" then "noScheme" else s) = sch
      by_cases hs : sch = "noScheme"
      · rw [hs, mget_mset_self]
        rfl
      · rw [mget_mset_ne _ _ _ _ (fun e => hs e.symm)]
        exact h

/-- `refineStepGrouped` never removes a key from the `"noScheme"` group. -/
theorem refineStep_noScheme_mono (ds : Bool) (o : GView) (r : Element)
    (k : String) (h : k ∈ mkeys ((mget o "noScheme").getD [])) :
    k ∈ mkeys ((mget (refineStepGrouped ds o r) "noScheme").getD []) := by
  simp only [refineStepGrouped]
  split
  · exact h
  · split
    · exact h
    · generalize (match r.getAttribute "scheme" with
        | none => "noScheme"
        | some s => if s == "" then "noScheme" else s) = sch
      by_cases hs : sch = "noScheme"
      · rw [hs, mget_mset_self]
        exact mem_mkeys_mset _ _ _ _ h
      · rw [mget_mset_ne _ _ _ _ (fun e => hs e.symm)]
        exact h

theorem foldl_refineStep_noScheme_isSome (ds : Bool) (l : List Element)
    (o : GView) (h : (mget o "noScheme").isSome = true) :
    (mget (l.foldl (refineStepGrouped ds) o) "noScheme").isSome = true := by
  induction l generalizing o with
  | nil => exact h
  | cons r t ih => exact ih _ (refineStep_noScheme_isSome ds o r h)

theorem foldl_refineStep_noScheme_mono (ds : Bool) (l : List Element)
    (o : GView) (k : String) (h : k ∈ mkeys ((mget o "noScheme").getD [])) :
    k ∈ mkeys ((mget (l.foldl (refineStepGrouped ds) o) "noScheme").getD []) := by
  induction l generalizing o with
  | nil => exact h
  | cons r t ih => exact ih _ (refineStep_noScheme_mono ds o r k h)

/-- **C10**: the grouped refinement view is always a (truthy) object
containing a `"noScheme"` group; when the collected `id` is falsy the view
is exactly `{noScheme: ownAttributes}`, and in every case the `"noScheme"`
group's keys include all of the element's own (optionally scheme-stripped)
attribute names.  In particular `refineMeta` never yields a falsy value,
so the `if(!attrs) continue` guard in `parseIdentifiers` can never fire. -/
theorem c10_refineMetaGrouped_noScheme (doc : Doc) (el : Element) (ds : Bool) :
    (mget (refineMetaGrouped doc el ds) "noScheme").isSome = true ∧
    (truthy (mget (collectAttrs el ds) "id") = false →
      refineMetaGrouped doc el ds = [("noScheme", collectAttrs el ds)]) ∧
    (∀ p ∈ el.attrs,
      (if ds then stripScheme p.1 else p.1) ∈
        mkeys ((mget (refineMetaGrouped doc el ds) "noScheme").getD [])) := by
  have hbase : mget ([("noScheme", collectAttrs el ds)] : GView) "noScheme" =
      some (collectAttrs el ds) := by
    rw [mget_cons]
    simp
  refine ⟨?_, ?_, ?_⟩
  · simp only [refineMetaGrouped]
    split
    · rw [hbase]
      rfl
    · split
      · rw [hbase]
        rfl
      · exact foldl_refineStep_noScheme_isSome _ _ _ (by rw [hbase]; rfl)
  · intro htr
    simp only [refineMetaGrouped]
    split
    · rfl
    · next idv heq =>
      split
      · rfl
      · next hne =>
        exfalso
        rw [heq] at htr
        apply hne
        simpa [truthy] using htr
  · intro p hp
    have hm := mem_mkeys_collectAttrs el ds p hp
    simp only [refineMetaGrouped]
    split
    · rw [hbase]
      exact hm
    · split
      · rw [hbase]
        exact hm
      · exact foldl_refineStep_noScheme_mono _ _ _ _ (by rw [hbase]; exact hm)

/-- Witness for C10 at a concrete refined element. -/
theorem c10_refineMetaGrouped_noScheme_witness :
    (mget (refineMetaGrouped onixDoc
        ⟨"dc:identifier", [("id", "isbn13")], "123"⟩ false) "noScheme").isSome
      = true :=
  (c10_refineMetaGrouped_noScheme onixDoc
    ⟨"dc:identifier", [("id", "isbn13")], "123"⟩ false).1

/-! ## Claim C4 -/

/-- **C4**: whenever the identifier loop found a truthy `"UUID"` and set
neither `"ISBN-10"` nor `"ISBN-13"` (truthily), `parseIdentifiers` ends
with the fallback: the UUID's digits go through `setISBN` exactly when
they pass checksum validation, and otherwise the set is returned
unchanged — no ISBN key is added. -/
theorem c4_uuid_isbn_fallback (fmt : String → String) (validate : String → Bool)
    (doc : Doc) (u : String)
    (hu : mget (parseIdentifiersRaw fmt doc) "UUID" = some (IdVal.str u))
    (hue : u ≠ "")
    (h10 : idTruthy (mget (parseIdentifiersRaw fmt doc) "ISBN-10") = false)
    (h13 : idTruthy (mget (parseIdentifiersRaw fmt doc) "ISBN-13") = false) :
    parseIdentifiers fmt validate doc =
      (if validate (digitsOnly u) then
        setISBN fmt (parseIdentifiersRaw fmt doc) (digitsOnly u)
      else parseIdentifiersRaw fmt doc) := by
  have hfb : isbnFallback fmt validate (parseIdentifiersRaw fmt doc) =
      (if validate (digitsOnly u) then
        setISBN fmt (parseIdentifiersRaw fmt doc) (digitsOnly u)
      else parseIdentifiersRaw fmt doc) := by
    simp only [isbnFallback, hu]
    rw [if_neg (by simpa using hue), if_neg (by rw [h10, h13]; simp)]
  cases hpkg : doc.packageEl with
  | none =>
    exfalso
    simp only [parseIdentifiersRaw, hpkg, mget_nil] at hu
    exact Option.noConfusion hu
  | some pkg =>
    by_cases hels : (getMetas doc "dc:identifier").getD [] = []
    · exfalso
      simp only [parseIdentifiersRaw, hpkg, hels, List.foldl_nil, mget_nil] at hu
      exact Option.noConfusion hu
    · simp only [parseIdentifiers, hpkg]
      rw [if_neg (by simpa [List.isEmpty_iff] using hels)]
      exact hfb

/-- Witness for C4: the spec's fallback example — a `unique-identifier`
element whose digits pass validation populates `"ISBN-13"`. -/
theorem c4_uuid_isbn_fallback_witness :
    parseIdentifiers id exampleValidate uuidIsbnDoc =
      (if exampleValidate (digitsOnly "978-1-4302-6572-6") then
        setISBN id (parseIdentifiersRaw id uuidIsbnDoc)
          (digitsOnly "978-1-4302-6572-6")
      else parseIdentifiersRaw id uuidIsbnDoc) ∧
    mget (parseIdentifiers id exampleValidate uuidIsbnDoc) "ISBN-13" =
      some (IdVal.str "9781430265726") :=
  ⟨c4_uuid_isbn_fallback id exampleValidate uuidIsbnDoc "978-1-4302-6572-6"
    (by decide) (by decide) (by decide) (by decide),
   by decide⟩

/-! ## Claim C5 -/

theorem spineStep_eq_resolve (items : List (String × String))
    (acc : List String) (el : Element) :
    spineStep items acc el =
      match resolveItemref items el with
      | none => acc
      | some x => acc ++ [x] := by
  simp only [spineStep, resolveItemref]
  split
  · rfl
  · rename_i idref hid
    by_cases h1 : idref = ""
    · simp [h1]
    · by_cases h2 : el.getAttribute "linear" = some "no"
      · simp [h1, h2]
      · simp only [beq_iff_eq, h1, h2, if_false]
        split
        · rfl
        · rename_i item hitem
          by_cases h3 : item = ""
          · simp [h3]
          · simp [h3]

theorem spineFold_eq_filterMap (items : List (String × String))
    (l : List Element) (acc : List String) :
    l.foldl (spineStep items) acc = acc ++ l.filterMap (resolveItemref items) := by
  induction l generalizing acc with
  | nil => simp
  | cons el t ih =>
    rw [List.foldl_cons, ih, spineStep_eq_resolve]
    cases hres : resolveItemref items el with
    | none => simp [List.filterMap_cons, hres]
    | some x => simp [List.filterMap_cons, hres]

/-- **C5**: `parseSpine` is absent exactly when the document has no
`spine` element; otherwise it carries the `toc` attribute verbatim, the
`page-progression-direction` (defaulting to `"ltr"` when the attribute is
falsy, in particular when absent), and the itemrefs in document order with
entries dropped exactly when `resolveItemref` rejects them (missing
`idref`, `linear="no"`, or unresolved through the manifest map).  In
particular the spec's example resolves to `["y.html"]` only. -/
theorem c5_parseSpine_characterization (doc : Doc) :
    (parseSpine doc = none ↔ doc.spineEl = none) ∧
    (∀ sp, doc.spineEl = some sp →
      parseSpine doc = some
        { toc := sp.getAttribute "toc"
        , pageProgressionDirection :=
            match sp.getAttribute "page-progression-direction" with
            | none => "ltr"
            | some s => if s == "" then "ltr" else s
        , items := doc.spineItemrefs.filterMap
            (resolveItemref (parseManifest doc)) }) ∧
    (∀ sp, doc.spineEl = some sp →
      sp.getAttribute "page-progression-direction" = none →
      ∃ r, parseSpine doc = some r ∧ r.pageProgressionDirection = "ltr") ∧
    parseSpine spineExDoc = some ⟨none, "ltr", ["y.html"]⟩ := by
  have hsome : ∀ sp, doc.spineEl = some sp →
      parseSpine doc = some
        { toc := sp.getAttribute "toc"
        , pageProgressionDirection :=
            match sp.getAttribute "page-progression-direction" with
            | none => "ltr"
            | some s => if s == "" then "ltr" else s
        , items := doc.spineItemrefs.filterMap
            (resolveItemref (parseManifest doc)) } := by
    intro sp hsp
    simp only [parseSpine, hsp]
    rw [spineFold_eq_filterMap]
    rfl
  refine ⟨?_, hsome, ?_, by decide⟩
  · cases hsp : doc.spineEl with
    | none => simp [parseSpine, hsp]
    | some sp =>
      rw [hsome sp hsp]
      simp
  · intro sp hsp hppd
    refine ⟨_, hsome sp hsp, ?_⟩
    simp [hppd]

/-- Witness for C5 at the spec's concrete spine example. -/
theorem c5_parseSpine_characterization_witness :
    parseSpine spineExDoc = some ⟨none, "ltr", ["y.html"]⟩ :=
  ((c5_parseSpine_characterization spineExDoc).2.1 ⟨"spine", [], ""⟩
    rfl).trans (by decide)

/-! ## Claim C6 -/

theorem titleStep_keysNodup (doc : Doc) (titles : List (String × String))
    (el : Element) (h : (mkeys titles).Nodup) :
    (mkeys (titleStep doc titles el)).Nodup := by
  simp only [titleStep]
  split
  · split
    · exact h
    · exact keysNodup_mset _ _ _ h
  · split
    · split
      · exact h
      · exact keysNodup_mset _ _ _ h
    · exact keysNodup_mset _ _ _ h

theorem getTitles_keysNodup (doc : Doc) : (mkeys (getTitles doc)).Nodup := by
  rw [getTitles]
  have h : ∀ (l : List Element) (titles : List (String × String)),
      (mkeys titles).Nodup →
      (mkeys (l.foldl (titleStep doc) titles)).Nodup := by
    intro l
    induction l with
    | nil => exact fun _ h => h
    | cons e t ih => exact fun ts h => ih _ (titleStep_keysNodup doc ts e h)
  exact h _ [] (by simp [mkeys])

/-- The mid-fold characterization of the `"main"` entry: the last explicit
`title-type="main"` wins; absent one, an already-truthy accumulated main
survives; else the first untyped title of the remaining list; else the
accumulated value. -/
theorem titles_fold_main (doc : Doc) (l : List Element)
    (titles : List (String × String))
    (htext : ∀ el ∈ l, el.textContent ≠ "") :
    mget (l.foldl (titleStep doc) titles) "main" =
      (match (l.filter (fun el => titleType doc el == some "main")).getLast? with
       | some el => some el.textContent
       | none =>
         if truthy (mget titles "main") = true then mget titles "main"
         else
           match l.find? (fun el => !truthy (titleType doc el)) with
           | some el => some el.textContent
           | none => mget titles "main") := by
  induction l generalizing titles with
  | nil =>
    simp only [List.foldl_nil, List.filter_nil, List.getLast?_nil,
      List.find?_nil]
    by_cases h : truthy (mget titles "main") = true
    · simp [h]
    · simp [h]
  | cons el t ih =>
    have htel : el.textContent ≠ "" := htext el (List.mem_cons_self _ _)
    have htext' : ∀ e ∈ t, e.textContent ≠ "" :=
      fun e he => htext e (List.mem_cons_of_mem _ he)
    rw [List.foldl_cons, ih _ htext']
    have main_untyped :
        titleStep doc titles el =
          (if truthy (mget titles "main") = true then titles
           else mset titles "main" el.textContent) →
        (titleType doc el == some "main") = false →
        (!truthy (titleType doc el)) = true →
        (match (t.filter (fun e => titleType doc e == some "main")).getLast? with
         | some e => some e.textContent
         | none =>
           if truthy (mget (titleStep doc titles el) "main") = true then
             mget (titleStep doc titles el) "main"
           else
             match t.find? (fun e => !truthy (titleType doc e)) with
             | some e => some e.textContent
             | none => mget (titleStep doc titles el) "main") =
        (match ((el :: t).filter
            (fun e => titleType doc e == some "main")).getLast? with
         | some e => some e.textContent
         | none =>
           if truthy (mget titles "main") = true then mget titles "main"
           else
             match (el :: t).find? (fun e => !truthy (titleType doc e)) with
             | some e => some e.textContent
             | none => mget titles "main") := by
      intro hstep hfilt hfind
      have hfc : List.find? (fun e => !truthy (titleType doc e)) (el :: t) =
          some el := List.find?_cons_of_pos t hfind
      rw [List.filter_cons_of_neg (by simp [hfilt]), hfc]
      by_cases hm : truthy (mget titles "main") = true
      · have hstep' : titleStep doc titles el = titles := by rw [hstep, if_pos hm]
        rw [hstep']
        cases (t.filter (fun e => titleType doc e == some "main")).getLast? with
        | some e => rfl
        | none => simp [hm]
      · have hstep' : titleStep doc titles el = mset titles "main" el.textContent := by
          rw [hstep, if_neg hm]
        have hmm : mget (titleStep doc titles el) "main" = some el.textContent := by
          rw [hstep', mget_mset_self]
        have hmt : truthy (some el.textContent) = true := by simp [truthy, htel]
        cases (t.filter (fun e => titleType doc e == some "main")).getLast? with
        | some e => rfl
        | none => simp [hmm, hmt, hm]
    rcases httv : titleType doc el with _ | tt
    · exact main_untyped (by simp [titleStep, httv]) (by simp [httv]) (by simp [truthy, httv])
    · by_cases htte : tt = ""
      · exact main_untyped (by simp [titleStep, httv, htte]) (by simp [httv, htte]) (by simp [truthy, httv, htte])
      · have hstep' : titleStep doc titles el = mset titles tt el.textContent := by
          simp [titleStep, httv, htte]
        have hfind : (!truthy (titleType doc el)) = false := by
          simp [truthy, httv, htte]
        by_cases htm : tt = "main"
        · subst htm
          have hmm : mget (titleStep doc titles el) "main" = some el.textContent := by
            rw [hstep', mget_mset_self]
          have hmt : truthy (some el.textContent) = true := by simp [truthy, htel]
          rw [List.filter_cons_of_pos (by simp [httv])]
          cases hfl : (t.filter (fun e => titleType doc e == some "main")).getLast? with
          | some e =>
            obtain ⟨ys, hys⟩ := List.getLast?_eq_some_iff.1 hfl
            rw [hys, show el :: (ys ++ [e]) = (el :: ys) ++ [e] from rfl,
              List.getLast?_concat]
          | none =>
            have : t.filter (fun e => titleType doc e == some "main") = [] :=
              List.getLast?_eq_none_iff.1 hfl
            rw [this]
            simp [hmm, hmt]
        · have hmm : mget (titleStep doc titles el) "main" = mget titles "main" := by
            rw [hstep', mget_mset_ne _ _ _ _ (fun e => htm e.symm)]
          rw [List.filter_cons_of_neg (by simp [httv, htm]),
            List.find?_cons_of_neg _ (by simp [hfind]), hmm]

/-- **C6** (amended; all title texts nonempty): the title set holds at most
one `"main"` entry; it equals `mainOfSpec` — the last explicit
`title-type="main"` title's text, else the first untyped title's text —
and a `"main"` entry exists exactly when some title is explicitly `"main"`
or lacks a truthy `title-type`. -/
theorem c6_titles_main (doc : Doc)
    (htext : ∀ el ∈ titleEls doc, el.textContent ≠ "") :
    ((getTitles doc).filter (fun p => p.1 == "main")).length ≤ 1 ∧
    mget (getTitles doc) "main" = mainOfSpec doc (titleEls doc) ∧
    ((mget (getTitles doc) "main").isSome = true ↔
      ∃ el ∈ titleEls doc,
        titleType doc el = some "main" ∨ truthy (titleType doc el) = false) := by
  have h2 : mget (getTitles doc) "main" = mainOfSpec doc (titleEls doc) := by
    rw [getTitles, titles_fold_main doc _ [] htext, mainOfSpec]
    cases ((titleEls doc).filter
        (fun el => titleType doc el == some "main")).getLast? with
    | some e => rfl
    | none =>
      rw [if_neg (by simp [mget_nil, truthy])]
      cases (titleEls doc).find? (fun el => !truthy (titleType doc el)) with
      | some e => rfl
      | none => rfl
  refine ⟨filter_key_length_le_one _ "main" (getTitles_keysNodup doc), h2, ?_⟩
  rw [h2, mainOfSpec]
  constructor
  · intro hs
    rcases hfl : ((titleEls doc).filter
        (fun el => titleType doc el == some "main")).getLast? with _ | e
    · rw [hfl] at hs
      rcases hf : (titleEls doc).find?
          (fun el => !truthy (titleType doc el)) with _ | e
      · rw [hf] at hs
        simp at hs
      · have hmem := List.mem_of_find?_eq_some hf
        have hQ := List.find?_some hf
        exact ⟨e, hmem, Or.inr (by simpa using hQ)⟩
    · have hmem := List.mem_of_getLast?_eq_some hfl
      have hPe : (titleType doc e == some "main") = true := (List.mem_filter.1 hmem).2
      exact ⟨e, (List.mem_filter.1 hmem).1, Or.inl (by simpa using hPe)⟩
  · rintro ⟨e, hmem, he⟩
    rcases hfl : ((titleEls doc).filter
        (fun el => titleType doc el == some "main")).getLast? with _ | x
    · have hfe : (titleEls doc).filter
          (fun el => titleType doc el == some "main") = [] :=
        List.getLast?_eq_none_iff.1 hfl
      rcases he with he | he
      · exfalso
        have hin : e ∈ (titleEls doc).filter
            (fun el => titleType doc el == some "main") :=
          List.mem_filter.2 ⟨hmem, by simp [he]⟩
        rw [hfe] at hin
        cases hin
      · have hfs : ((titleEls doc).find?
            (fun el => !truthy (titleType doc el))).isSome := by
          rw [List.find?_isSome]
          exact ⟨e, hmem, by simp [he]⟩
        rcases hf : (titleEls doc).find?
            (fun el => !truthy (titleType doc el)) with _ | x
        · rw [hf] at hfs
          simp at hfs
        · simp
    · simp

/-- **C6** (counterexample): a document whose only title has
`title-type="subtitle"` produces a TitleSet with no `"main"` entry at all,
so "exactly one main entry for every document" fails. -/
theorem c6_counterexample :
    mget (getTitles subtitleOnlyDoc) "main" = none ∧
    getTitles subtitleOnlyDoc = [("subtitle", "S")] := by
  refine ⟨by decide, by decide⟩

/-- Witness for C6's amended claim at the spec's two-title example:
`main = "Foo"`, with the subtitle refined onto the second title. -/
theorem c6_titles_main_witness :
    mget (getTitles titleExDoc) "main" = mainOfSpec titleExDoc (titleEls titleExDoc) ∧
    mget (getTitles titleExDoc) "main" = some "Foo" ∧
    getTitles titleExDoc = [("main", "Foo"), ("subtitle", "Bar")] :=
  ⟨(c6_titles_main titleExDoc (by decide)).2.1, by decide, by decide⟩

/-! ## Claim C8 -/

/-- The source's derived filing computation agrees with the spec-worded
`specFiling`. -/
theorem derivedFiling_eq_specFiling (name : String) :
    derivedFiling name = specFiling name := by
  simp only [derivedFiling, specFiling]
  generalize jsSplitWS name = l
  match l with
  | [] => simp
  | [x] => simp
  | x :: y :: rest => rw [if_neg (by simp)]

/-- **C8**: `getAuthors(true)` maps each author of the `"aut"` group, in
the group's (sorted) order, to its truthy `for-filing` property verbatim
or else the spec's derived "Last, First Middle…" form; an absent `"aut"`
group yields `[]` in both modes, and `getAuthors(false)` returns the
display names.  In particular the sole creator `Jane Doe` of `janeDoc`
yields `["Jane Doe"]` and `["Doe, Jane"]`. -/
theorem c8_getAuthors_modes (creators : List (String × List Creator)) :
    (mget creators "aut" = none →
      getAuthors creators true = [] ∧ getAuthors creators false = []) ∧
    (∀ auts, mget creators "aut" = some auts →
      getAuthors creators true = auts.map (fun a =>
        match mget a "for-filing" with
        | some ff => if ff == "" then specFiling ((mget a "name").getD "") else ff
        | none => specFiling ((mget a "name").getD "")) ∧
      getAuthors creators false = auts.map (fun a => (mget a "name").getD "")) ∧
    getAuthors (parseCreators janeDoc) false = ["Jane Doe"] ∧
    getAuthors (parseCreators janeDoc) true = ["Doe, Jane"] := by
  refine ⟨fun h => ⟨?_, ?_⟩, fun auts h => ⟨?_, ?_⟩, by decide, by decide⟩
  · simp [getAuthors, h]
  · simp [getAuthors, h]
  · simp only [getAuthors, h, if_true]
    exact congrArg (fun f => List.map f auts) (funext fun a => by
      simp only [filingName]
      cases hff : mget a "for-filing" with
      | none => exact derivedFiling_eq_specFiling _
      | some ff =>
        by_cases he : ff = ""
        · simp [he, derivedFiling_eq_specFiling]
        · simp [he])
  · simp [getAuthors, h]

/-- Witness for C8 applying the map characterization to the concrete Jane
Doe creator set. -/
theorem c8_getAuthors_modes_witness :
    getAuthors (parseCreators janeDoc) true = [specFiling "Jane Doe"] ∧
    specFiling "Jane Doe" = "Doe, Jane" :=
  ⟨(((c8_getAuthors_modes (parseCreators janeDoc)).2.1
      [[("id", "c1"), ("name", "Jane Doe"), ("role", "unknown")]]
      (by decide)).1).trans (by decide),
   by decide⟩

end OPF
